import Mathlib

/-!
Verification of the `xdelta3-rs` wrapper (`src/lib.rs`) and of the VCDIFF
codec core it wraps.

The repository's own code is the marshalling layer in `src/lib.rs`:
`Error`, `encode`, `encode_with_output_len`, `decode`,
`decode_with_output_len`.  Those functions are embedded here directly from
the source.  The native functions `xd3_encode_memory` / `xd3_decode_memory`
that they call live in the wrapped C library and are not part of `src/`;
they are modelled from the specification (sections 2-8 of the spec), with
the wire-format details that the spec leaves out (the header-indicator byte
after the version byte, and the per-window delta-encoding-length field)
taken from the crate's own documented example vectors in `src/lib.rs`
(the 20-byte delta `[214, 195, 196, 0, 0, 0, 13, 7, 0, 7, 1, 0,
1, 2, 3, 4, 5, 6, 7, 8]`).

Bytes are modelled as `Nat` (values < 256 in every real execution),
byte slices as `List Nat`, `u32` arithmetic as `Nat` arithmetic with
explicit `% 2 ^ 32`, and fallible operations return `Except`.
-/

namespace Xd3

/-- Modelled from the spec: the error kinds of the codec core (spec section 7).
`InsufficientOutputCapacity` is reported by the memory API as the `ENOSPC`
error code and is therefore not listed here; the remaining kinds are mapped
to distinct nonzero native error codes by `coreErrCode`. -/
inductive CoreError where
  | MalformedVarInt
  | MalformedWindow
  | InvalidInstruction
  | AddressOutOfBounds
  | ChecksumMismatch
deriving Repr, DecidableEq

/-! ## VarInt codec (spec section 4.1)

Big-endian base-128 groups, high bit set on every byte except the last.
Decoding rejects a stream that ends before a terminating byte and a value
that does not fit in 64 bits. -/

/-- Little-endian base-128 digits of `n`; the first argument is fuel
(`n + 1` always suffices). -/
def varintGroups : Nat → Nat → List Nat
  | 0, _ => []
  | fuel + 1, n => if n < 128 then [n] else n % 128 :: varintGroups fuel (n / 128)

/-- Set the continuation (high) bit on every byte except the last one. -/
def markCont : List Nat → List Nat
  | [] => []
  | [b] => [b]
  | b :: rest => (b + 128) :: markCont rest

/-- Modelled from the spec: varint encoding, big-endian 7-bit groups with
high-bit continuation (spec section 4.1). -/
def encodeVarint (n : Nat) : List Nat :=
  markCont (varintGroups (n + 1) n).reverse

/-! ## Byte-stream readers

A reader consumes a prefix of a byte list and returns the value read plus
the remaining bytes, or a `CoreError`. -/

/-- A reader over a byte stream. -/
def P (α : Type) : Type := List Nat → Except CoreError (α × List Nat)

/-- Sequencing of readers. -/
def pBind {α β : Type} (m : P α) (f : α → P β) : P β := fun xs =>
  match m xs with
  | Except.error e => Except.error e
  | Except.ok (a, rest) => f a rest

/-- Reader returning a value without consuming input. -/
def pPure {α : Type} (a : α) : P α := fun xs => Except.ok (a, xs)

/-- Reader that fails. -/
def pFail {α : Type} (e : CoreError) : P α := fun _ => Except.error e

/-- Reader that checks a decidable condition and fails with `e` otherwise. -/
def pGuard (c : Prop) [Decidable c] (e : CoreError) : P Unit := fun xs =>
  if c then Except.ok ((), xs) else Except.error e

/-- Read one byte; a stream that ends inside a window is malformed. -/
def readByte : P Nat := fun xs =>
  match xs with
  | [] => Except.error CoreError.MalformedWindow
  | b :: rest => Except.ok (b, rest)

/-- Read exactly `k` bytes. -/
def readChunk (k : Nat) : P (List Nat) := fun xs =>
  if k ≤ xs.length then Except.ok (xs.take k, xs.drop k)
  else Except.error CoreError.MalformedWindow

/-- Accumulating loop of the varint decoder. -/
def readVarintAux : List Nat → Nat → Except CoreError (Nat × List Nat)
  | [], _ => Except.error CoreError.MalformedVarInt
  | b :: rest, acc =>
    if b < 128 then Except.ok (acc * 128 + b, rest)
    else readVarintAux rest (acc * 128 + (b - 128))

/-- Modelled from the spec: varint decoding; fails with `MalformedVarInt`
when the stream ends before a terminating byte (high bit clear) or when the
accumulated value would overflow 64 bits (spec section 4.1). -/
def readVarint : P Nat := fun xs =>
  match readVarintAux xs 0 with
  | Except.error e => Except.error e
  | Except.ok (v, rest) =>
    if v < 2 ^ 64 then Except.ok (v, rest) else Except.error CoreError.MalformedVarInt

/-! ## Delta windows (spec sections 3 and 6) -/

/-- Modelled from the spec: one delta window (spec sections 3 and 6) —
source-segment descriptor, target length, optional checksum and the three
sub-sections (literal data, instruction codes, copy addresses). -/
structure VcdWindow where
  hasSource : Bool
  srcLen : Nat
  srcOff : Nat
  targetLen : Nat
  checksum : Option (List Nat)
  data : List Nat
  inst : List Nat
  addr : List Nat
deriving Repr, DecidableEq

/-- Modelled from the spec: window serialization (spec sections 4.5 and 6),
extended with the per-window delta-encoding-length field exhibited by the
crate's documented example delta (byte 6, value 13, of the documented
20-byte vector), which the spec's format block omits.  `windowBody` is the
part of the window that follows the delta-encoding-length field, whose
value is `(windowBody w).length`. -/
def windowBody (w : VcdWindow) : List Nat :=
  encodeVarint w.targetLen ++ [0] ++
  encodeVarint w.data.length ++ encodeVarint w.inst.length ++ encodeVarint w.addr.length ++
  (match w.checksum with | some cs => cs | none => []) ++ w.data ++ w.inst ++ w.addr

/-- Modelled from the spec: window serialization (spec sections 4.5 and 6) —
the window-indicator byte, the source-segment descriptor when declared, the
delta-encoding-length field and the body. -/
def serializeWindow (w : VcdWindow) : List Nat :=
  let winInd : Nat := (if w.hasSource then 1 else 0) + (if w.checksum.isSome then 4 else 0)
  let srcPart : List Nat :=
    if w.hasSource then encodeVarint w.srcLen ++ encodeVarint w.srcOff else []
  [winInd] ++ srcPart ++ encodeVarint (windowBody w).length ++ windowBody w

/-- Modelled from the spec: window parsing (spec section 4.6).  Validates the
window-indicator bits, that a declared source segment lies inside the source
window of length `ns`, the compression indicator, and that every declared
section length is consistent with the remaining stream.  `parseWindow` is a
pure scan: it frames the sections but does not execute instructions. -/
def parseWindow (ns : Nat) : P VcdWindow :=
  pBind readByte fun winInd =>
  pBind (pGuard (winInd < 8 ∧ winInd / 2 % 2 = 0) CoreError.MalformedWindow) fun _ =>
  pBind (if winInd % 2 = 1 then
           pBind readVarint fun sl =>
           pBind readVarint fun so =>
           pBind (pGuard (so + sl ≤ ns) CoreError.AddressOutOfBounds) fun _ =>
           pPure (true, sl, so)
         else pPure (false, 0, 0)) fun srcInfo =>
  pBind readVarint fun _deltaLen =>
  pBind readVarint fun targetLen =>
  pBind readByte fun deltaInd =>
  pBind (pGuard (deltaInd = 0) CoreError.MalformedWindow) fun _ =>
  pBind readVarint fun dataLen =>
  pBind readVarint fun instLen =>
  pBind readVarint fun addrLen =>
  pBind (if winInd / 4 % 2 = 1 then pBind (readChunk 4) (fun cs => pPure (some cs))
         else pPure none) fun cks =>
  pBind (readChunk dataLen) fun dataSec =>
  pBind (readChunk instLen) fun instSec =>
  pBind (readChunk addrLen) fun addrSec =>
  pPure { hasSource := srcInfo.1, srcLen := srcInfo.2.1, srcOff := srcInfo.2.2,
          targetLen := targetLen, checksum := cks,
          data := dataSec, inst := instSec, addr := addrSec }

/-! ## Address cache (spec section 4.2)

A near ring of 4 slots and a same table of 3 × 256 slots, all initialised
to zero.  The update rule runs identically after every COPY in both encode
and decode. -/

/-- Modelled from the spec: the address-cache state (spec sections 3
and 4.2). -/
structure Cache where
  near : List Nat
  nextSlot : Nat
  same : List Nat
deriving Repr, DecidableEq

/-- Modelled from the spec: the initial address cache, all slots zero. -/
def initCache : Cache :=
  { near := List.replicate 4 0, nextSlot := 0, same := List.replicate 768 0 }

/-- Modelled from the spec: the cache update run after every COPY, identical
in encode and decode (spec section 4.2): push the address into the near ring
(evicting the oldest) and store it in the same-table slot `addr % 768`. -/
def cacheUpdate (c : Cache) (a : Nat) : Cache :=
  { near := c.near.set (c.nextSlot % 4) a,
    nextSlot := (c.nextSlot + 1) % 4,
    same := c.same.set (a % 768) a }

/-- Length in bytes of the varint encoding of `n`. -/
def varintLen (n : Nat) : Nat := (encodeVarint n).length

/-- The near-cache slot whose stored address is closest below `a`,
with the positive delta, if any slot qualifies. -/
def bestNear (near : List Nat) (a : Nat) : Option (Nat × Nat) :=
  (List.range 4).foldl
    (fun best i =>
      if near.getD i 0 ≤ a then
        let d := a - near.getD i 0
        match best with
        | none => some (i, d)
        | some (_, d0) => if d < d0 then some (i, d) else best
      else best)
    none

/-- Modelled from the spec: address-mode selection during encoding
(spec section 4.2).  Modes: 0 = SELF (varint of the address), 1 = HERE
(varint of `here - addr`), 2-5 = NEAR slot (varint of the positive delta),
6-8 = SAME row (single byte `addr % 256`).  SAME wins on an exact table hit;
otherwise the cheapest (shortest) encoding wins, ties resolved in the
preference order NEAR, SELF, HERE. -/
def encodeAddr (c : Cache) (a here : Nat) : Nat × List Nat :=
  if c.same.getD (a % 768) 0 = a then
    (6 + a % 768 / 256, [a % 256])
  else
    let selfCost := varintLen a
    let hereCost := varintLen (here - a)
    match bestNear c.near a with
    | some (i, d) =>
      if varintLen d ≤ selfCost ∧ varintLen d ≤ hereCost then (2 + i, encodeVarint d)
      else if selfCost ≤ hereCost then (0, encodeVarint a)
      else (1, encodeVarint (here - a))
    | none =>
      if selfCost ≤ hereCost then (0, encodeVarint a) else (1, encodeVarint (here - a))

/-- Modelled from the spec: address decoding (spec section 4.2), reading the
mode's payload from the address section: SAME reads one byte and looks up
the table row, NEAR adds the varint delta to the cached slot, SELF reads the
absolute varint, HERE subtracts the varint from `here` (rejecting a distance
that reaches before the start of the combined buffer). -/
def decodeAddr (c : Cache) (here mode : Nat) : P Nat := fun addrStream =>
  if 6 ≤ mode then
    match addrStream with
    | [] => Except.error CoreError.MalformedWindow
    | b :: rest => Except.ok (c.same.getD ((mode - 6) * 256 + b) 0, rest)
  else if mode = 0 then
    readVarint addrStream
  else if mode = 1 then
    match readVarint addrStream with
    | Except.error e => Except.error e
    | Except.ok (v, rest) =>
      if v ≤ here then Except.ok (here - v, rest)
      else Except.error CoreError.AddressOutOfBounds
  else
    match readVarint addrStream with
    | Except.error e => Except.error e
    | Except.ok (v, rest) => Except.ok (c.near.getD (mode - 2) 0 + v, rest)

/-! ## Instruction opcode table (spec section 6)

The closed, fixed default code table of VCDIFF: 256 opcodes, each mapping
to one or two instructions with pre-tabulated sizes (size 0 meaning an
explicit varint size follows the opcode). -/

/-- Modelled from the spec: the three instruction kinds (spec section 3). -/
inductive IKind where
  | ADD
  | RUN
  | COPY
deriving Repr, DecidableEq

/-- One instruction slot of an opcode-table entry. -/
structure ISpec where
  kind : IKind
  size : Nat
  mode : Nat
deriving Repr, DecidableEq

/-- Modelled from the spec: the fixed default opcode table (spec sections 4.4
and 6): opcode 0 is RUN with explicit size, 1 is ADD with explicit size,
2-18 are ADD of sizes 1-17, 19 + 16·m .. 34 + 16·m are COPY in mode m with
explicit size or sizes 4-18, 163-234 are merged ADD(1-4)+COPY(4-6) for
modes 0-5, 235-246 are merged ADD(1-4)+COPY(4) for modes 6-8 and 247-255
are merged COPY(4)+ADD(1) for modes 0-8. -/
def opcodeEntry (op : Nat) : List ISpec :=
  if op = 0 then [⟨IKind.RUN, 0, 0⟩]
  else if op = 1 then [⟨IKind.ADD, 0, 0⟩]
  else if op ≤ 18 then [⟨IKind.ADD, op - 1, 0⟩]
  else if op ≤ 162 then
    [⟨IKind.COPY, if (op - 19) % 16 = 0 then 0 else (op - 19) % 16 + 3, (op - 19) / 16⟩]
  else if op ≤ 234 then
    [⟨IKind.ADD, (op - 163) % 12 / 3 + 1, 0⟩,
     ⟨IKind.COPY, (op - 163) % 12 % 3 + 4, (op - 163) / 12⟩]
  else if op ≤ 246 then
    [⟨IKind.ADD, (op - 235) % 4 + 1, 0⟩, ⟨IKind.COPY, 4, (op - 235) / 4 + 6⟩]
  else if op ≤ 255 then
    [⟨IKind.COPY, 4, op - 247⟩, ⟨IKind.ADD, 1, 0⟩]
  else []

/-! ## Instruction executor (spec section 4.7) -/

/-- Adler-32 checksum of a byte list. -/
def adler32 (l : List Nat) : Nat :=
  let p := l.foldl (fun ab b => ((ab.1 + b % 256) % 65521, (ab.2 + ab.1 + b % 256) % 65521)) (1, 0)
  p.2 * 65536 + p.1

/-- Big-endian 4-byte representation of a checksum. -/
def adlerBytes (l : List Nat) : List Nat :=
  [adler32 l / 2 ^ 24 % 256, adler32 l / 2 ^ 16 % 256, adler32 l / 2 ^ 8 % 256, adler32 l % 256]

/-- Modelled from the spec: byte-by-byte copy from the combined buffer
(source segment followed by the target produced so far), so that an
overlapping self-referential COPY legally expands repeated runs
(spec section 4.7).  Fails with `AddressOutOfBounds` when a byte to copy
does not exist yet. -/
def copyN : Nat → Nat → List Nat → List Nat → Except CoreError (List Nat)
  | 0, _, _, out => Except.ok out
  | k + 1, a, srcSeg, out =>
    match (if a < srcSeg.length then srcSeg.get? a else out.get? (a - srcSeg.length)) with
    | none => Except.error CoreError.AddressOutOfBounds
    | some b => copyN k (a + 1) srcSeg (out ++ [b])

/-- The mutable state of the instruction executor: the data and address
section cursors, the address cache and the output produced so far. -/
structure ExecState where
  dataS : List Nat
  addrS : List Nat
  cache : Cache
  out : List Nat
deriving Repr, DecidableEq

/-- Modelled from the spec: execution of one instruction (spec section 4.7).
ADD appends `sz` bytes from the data cursor, RUN appends one data byte
repeated `sz` times, COPY resolves its address through the cache against the
combined buffer and copies byte by byte, then updates the cache. -/
def applySpec (srcSeg : List Nat) (sp : ISpec) (sz : Nat) (st : ExecState) :
    Except CoreError ExecState :=
  match sp.kind with
  | IKind.ADD =>
    if sz ≤ st.dataS.length then
      Except.ok { st with dataS := st.dataS.drop sz, out := st.out ++ st.dataS.take sz }
    else Except.error CoreError.MalformedWindow
  | IKind.RUN =>
    match st.dataS with
    | [] => Except.error CoreError.MalformedWindow
    | b :: rest => Except.ok { st with dataS := rest, out := st.out ++ List.replicate sz b }
  | IKind.COPY =>
    match decodeAddr st.cache (srcSeg.length + st.out.length) sp.mode st.addrS with
    | Except.error e => Except.error e
    | Except.ok (a, addrRest) =>
      match copyN sz a srcSeg st.out with
      | Except.error e => Except.error e
      | Except.ok out2 =>
        Except.ok { st with addrS := addrRest, cache := cacheUpdate st.cache a, out := out2 }

/-- Modelled from the spec: the executor's instruction loop (spec
section 4.7), consuming the instruction section opcode by opcode.  The first
argument is fuel; `inst.length + 1` always suffices since every iteration
consumes at least the opcode byte. -/
def execInsts (srcSeg : List Nat) : Nat → List Nat → ExecState → Except CoreError ExecState
  | 0, instS, st =>
    if instS = [] then Except.ok st else Except.error CoreError.MalformedWindow
  | fuel + 1, instS, st =>
    match instS with
    | [] => Except.ok st
    | op :: rest =>
      match opcodeEntry op with
      | [sp] =>
        if sp.size = 0 then
          match readVarint rest with
          | Except.error e => Except.error e
          | Except.ok (sz, rest2) =>
            match applySpec srcSeg sp sz st with
            | Except.error e => Except.error e
            | Except.ok st2 => execInsts srcSeg fuel rest2 st2
        else
          match applySpec srcSeg sp sp.size st with
          | Except.error e => Except.error e
          | Except.ok st2 => execInsts srcSeg fuel rest st2
      | [sp1, sp2] =>
        match applySpec srcSeg sp1 sp1.size st with
        | Except.error e => Except.error e
        | Except.ok st2 =>
          match applySpec srcSeg sp2 sp2.size st2 with
          | Except.error e => Except.error e
          | Except.ok st3 => execInsts srcSeg fuel rest st3
      | _ => Except.error CoreError.InvalidInstruction

/-- Modelled from the spec: apply one parsed window (spec section 4.7):
run its instructions against the declared source segment, then require the
declared target length to be met exactly, the data and address sections to
be fully consumed, and the checksum (when declared) to match. -/
def execWindow (src : List Nat) (w : VcdWindow) : Except CoreError (List Nat) :=
  let srcSeg := if w.hasSource then (src.drop w.srcOff).take w.srcLen else []
  match execInsts srcSeg (w.inst.length + 1) w.inst ⟨w.data, w.addr, initCache, []⟩ with
  | Except.error e => Except.error e
  | Except.ok st =>
    if st.out.length = w.targetLen ∧ st.dataS = [] ∧ st.addrS = [] then
      match w.checksum with
      | none => Except.ok st.out
      | some cs =>
        if cs = adlerBytes st.out then Except.ok st.out
        else Except.error CoreError.ChecksumMismatch
    else Except.error CoreError.MalformedWindow

/-- Modelled from the spec: the window loop of the decoder — parse a window,
execute it, append its output, until the stream is exhausted (spec
section 2).  The first argument is fuel; `rest.length + 1` always suffices
since a window consumes at least one byte. -/
def decodeWindows (src : List Nat) : Nat → List Nat → List Nat → Except CoreError (List Nat)
  | 0, rest, acc =>
    if rest = [] then Except.ok acc else Except.error CoreError.MalformedWindow
  | fuel + 1, rest, acc =>
    if rest = [] then Except.ok acc
    else
      match parseWindow src.length rest with
      | Except.error e => Except.error e
      | Except.ok (w, rest2) =>
        match execWindow src w with
        | Except.error e => Except.error e
        | Except.ok t => decodeWindows src fuel rest2 (acc ++ t)

/-- Modelled from the spec: the decode side of the codec core (spec
sections 2, 4.6 and 4.7): validate the 3-byte magic, the version byte and
the header-indicator byte, then parse and execute the windows. -/
def decodeDelta (input src : List Nat) : Except CoreError (List Nat) :=
  match input with
  | a :: b :: c :: d :: e :: rest =>
    if a = 214 ∧ b = 195 ∧ c = 196 ∧ d = 0 ∧ e = 0 then
      decodeWindows src (rest.length + 1) rest []
    else Except.error CoreError.MalformedWindow
  | _ => Except.error CoreError.MalformedWindow

/-! ## Match finder (spec section 4.3)

At every target position the finder looks for the longest run of upcoming
target bytes that equals a run starting at an earlier address of the
conceptual combined buffer (source followed by the target produced so far),
verifies byte-for-byte equality and extends greedily; ties prefer the most
recently seen offset.  The hash table of the spec is only an accelerator
for this search and does not change which matches exist, so the model
searches candidate addresses directly. -/

/-- Length of the common run between combined-buffer position `a` and target
position `t` (first argument is fuel; `T.length` suffices). -/
def extLen (S T : List Nat) : Nat → Nat → Nat → Nat
  | 0, _, _ => 0
  | f + 1, a, t =>
    if t < T.length ∧ (S ++ T).getD a 0 = T.getD t 0 then 1 + extLen S T f (a + 1) (t + 1)
    else 0

/-- Modelled from the spec: the best copy candidate at target position `t` —
the address below `S.length + t` with the longest byte-verified extension,
preferring the most recent (largest) address on equal length
(spec section 4.3). -/
def bestMatch (S T : List Nat) (t : Nat) : Nat × Nat :=
  (List.range (S.length + t)).foldl
    (fun best a =>
      let l := extLen S T T.length a t
      if best.2 ≤ l then (a, l) else best)
    (0, 0)

/-- Minimum match length below which a candidate is discarded in favour of
literal emission (spec section 3: typically 4-8; the conventional value 4). -/
def minMatch : Nat := 4

/-- Run threshold at or above which a literal run of one repeated byte is
emitted as RUN instead of ADD (spec section 4.4: typically 8). -/
def runThreshold : Nat := 8

/-- A span chosen by the match finder: a literal run, a single-byte run or a
copy (spec sections 3 and 4.3). -/
inductive Span where
  | lit (bytes : List Nat)
  | run (b len : Nat)
  | copy (a len : Nat)
deriving Repr, DecidableEq

/-- Flush an accumulated literal run into a span, turning a long run of one
repeated byte into RUN (spec section 4.4). -/
def flushLit (acc : List Nat) : List Span :=
  if acc = [] then []
  else if runThreshold ≤ acc.length ∧ acc.all (fun b => b = acc.headD 0) then
    [Span.run (acc.headD 0) acc.length]
  else [Span.lit acc]

/-- Modelled from the spec: the match-finder walk over the target (spec
section 4.3): take the best candidate at the current position if it reaches
`minMatch`, otherwise fold the byte into the accumulating literal run.
The first argument is fuel; `T.length + 1` always suffices since the
position advances at every step. -/
def buildSpans (S T : List Nat) : Nat → Nat → List Nat → List Span
  | 0, _, acc => flushLit acc
  | f + 1, t, acc =>
    if T.length ≤ t then flushLit acc
    else
      let m := bestMatch S T t
      if minMatch ≤ m.2 then
        flushLit acc ++ (Span.copy m.1 m.2 :: buildSpans S T f (t + m.2) [])
      else buildSpans S T f (t + 1) (acc ++ [T.getD t 0])

/-- The span cover of the whole target. -/
def spans (S T : List Nat) : List Span := buildSpans S T (T.length + 1) 0 []

/-! ## Instruction emitter (spec section 4.4) -/

/-- Modelled from the spec: the instruction emitter (spec section 4.4),
converting the span sequence into the three parallel streams (instruction
opcodes, literal data, copy addresses).  A length that fits the opcode
table is packed into the opcode, anything else uses the explicit-size
opcode followed by a varint; every COPY updates the address cache before
the next instruction's address is encoded; `srcBase` is the length of the
declared source segment, so a COPY at target position `t` sits at combined
position `srcBase + t`. -/
def emitSpans (srcBase : Nat) : List Span → Cache → Nat → List Nat × List Nat × List Nat
  | [], _, _ => ([], [], [])
  | Span.lit bs :: rest, c, t =>
    let op := if bs.length ≤ 17 then [bs.length + 1] else 1 :: encodeVarint bs.length
    let r := emitSpans srcBase rest c (t + bs.length)
    (op ++ r.1, bs ++ r.2.1, r.2.2)
  | Span.run b l :: rest, c, t =>
    let r := emitSpans srcBase rest c (t + l)
    ((0 :: encodeVarint l) ++ r.1, b :: r.2.1, r.2.2)
  | Span.copy a l :: rest, c, t =>
    let ma := encodeAddr c a (srcBase + t)
    let op := if minMatch ≤ l ∧ l ≤ 18 then [19 + 16 * ma.1 + (l - 3)]
              else (19 + 16 * ma.1) :: encodeVarint l
    let r := emitSpans srcBase rest (cacheUpdate c a) (t + l)
    (op ++ r.1, r.2.1, ma.2 ++ r.2.2)

/-- Whether any span is a copy. -/
def spanHasCopy (sp : List Span) : Bool :=
  sp.any fun s => match s with | Span.copy _ _ => true | _ => false

/-- Modelled from the spec: assembly of the single delta window the memory
API produces (spec sections 2 and 4.5): the window declares the whole source
as its segment exactly when some COPY exists and the source is nonempty
(the documented example vector shows a sourceless window when no match was
found), carries no checksum, and holds the emitter's three streams. -/
def buildWindow (T S : List Nat) : VcdWindow :=
  let sp := spans S T
  let hasSrc := spanHasCopy sp && !S.isEmpty
  let streams := emitSpans S.length sp initCache 0
  { hasSource := hasSrc, srcLen := S.length, srcOff := 0, targetLen := T.length,
    checksum := none, data := streams.2.1, inst := streams.1, addr := streams.2.2 }

/-- Modelled from the spec: the encode side of the codec core (spec
sections 2 and 6): the 3-byte magic, the version byte, the header-indicator
byte, then the serialized window. -/
def encodeDelta (T S : List Nat) : List Nat :=
  [214, 195, 196, 0] ++ [0] ++ serializeWindow (buildWindow T S)

/-! ## The native memory API (modelled) -/

/-- The `ENOSPC` errno value on Linux, the code the native library reports
when the caller-provided output buffer is too small. -/
def ENOSPC : Int := 28

/-- Modelled from the spec: `xd3_encode_memory` — build the delta and report
it when it fits the caller's buffer, else return `ENOSPC` (spec section 7:
encode errors are only capacity conditions).  Returns the native error code
and the bytes written. -/
def xd3_encode_memory (input src : List Nat) (output_buffer_len : Nat) : Int × List Nat :=
  let d := encodeDelta input src
  if output_buffer_len < d.length then (ENOSPC, []) else (0, d)

/-- The nonzero native error code reported for each core decode error.
Only its zero-ness and whether it equals `ENOSPC` matter to the wrapper. -/
def coreErrCode : CoreError → Int
  | CoreError.MalformedVarInt => -1
  | CoreError.MalformedWindow => -2
  | CoreError.InvalidInstruction => -3
  | CoreError.AddressOutOfBounds => -4
  | CoreError.ChecksumMismatch => -5

/-- Modelled from the spec: `xd3_decode_memory` — decode the delta against
the source, reporting `ENOSPC` when the reconstructed target does not fit
the caller's buffer and a nonzero code for every decode error. -/
def xd3_decode_memory (input src : List Nat) (output_buffer_len : Nat) : Int × List Nat :=
  match decodeDelta input src with
  | Except.error e => (coreErrCode e, [])
  | Except.ok t => if output_buffer_len < t.length then (ENOSPC, []) else (0, t)

/-! ## The wrapper (embedded from `src/lib.rs`) -/

/-- The wrapper's error type, from `src/lib.rs` lines 28-37. -/
inductive Error where
  | XDelta3 (error_code : Int)
  | InsufficientOutputLength
  | OutOfBounds (expected_length actual_length : Nat)
deriving Repr, DecidableEq

/-- The result handling shared by `encode_with_output_len` (lines 111-127)
and `decode_with_output_len` (lines 178-194) of `src/lib.rs`: a zero error
code yields the written bytes after the sanity check that the reported
output length does not exceed the buffer length (else `OutOfBounds`),
`ENOSPC` maps to `InsufficientOutputLength`, and any other code to
`XDelta3`. -/
def wrapResult (output_buffer_len : Nat) (error_code : Int) (out : List Nat) :
    Except Error (List Nat) :=
  if error_code = 0 then
    if output_buffer_len < out.length then
      Except.error (Error.OutOfBounds output_buffer_len out.length)
    else Except.ok out
  else if error_code = ENOSPC then Except.error Error.InsufficientOutputLength
  else Except.error (Error.XDelta3 error_code)

/-- The `as c_uint` casts of `src/lib.rs` lines 95-96 and 162-163: the
native call receives the slice length truncated to 32 bits, hence sees only
that many leading bytes. -/
def truncU32 (l : List Nat) : List Nat := l.take (l.length % 2 ^ 32)

/-- `encode_with_output_len` from `src/lib.rs` lines 90-128. -/
def encode_with_output_len (input src : List Nat) (output_buffer_len : Nat) :
    Except Error (List Nat) :=
  let r := xd3_encode_memory (truncU32 input) (truncU32 src) output_buffer_len
  wrapResult output_buffer_len r.1 r.2

/-- `decode_with_output_len` from `src/lib.rs` lines 157-195. -/
def decode_with_output_len (input src : List Nat) (output_buffer_len : Nat) :
    Except Error (List Nat) :=
  let r := xd3_decode_memory (truncU32 input) (truncU32 src) output_buffer_len
  wrapResult output_buffer_len r.1 r.2

/-- The default output-buffer length `(input.len() + src.len()) as u32 * 2`
of `src/lib.rs` lines 87 and 154: the combined length truncated to 32 bits,
then doubled in wrapping 32-bit arithmetic. -/
def defaultOutputLen (inputLen srcLen : Nat) : Nat :=
  (inputLen + srcLen) % 2 ^ 32 * 2 % 2 ^ 32

/-- `encode` from `src/lib.rs` lines 86-88. -/
def encode (input src : List Nat) : Except Error (List Nat) :=
  encode_with_output_len input src (defaultOutputLen input.length src.length)

/-- `decode` from `src/lib.rs` lines 153-155. -/
def decode (input src : List Nat) : Except Error (List Nat) :=
  decode_with_output_len input src (defaultOutputLen input.length src.length)

/-- The round trip of the spec's section 8: encode, then decode the delta
against the same source. -/
def roundTrip (t s : List Nat) : Except Error (List Nat) :=
  match encode t s with
  | Except.error e => Except.error e
  | Except.ok d => decode d s

/-! ## Lemmas about the varint codec -/

/-- The value of a little-endian list of base-128 digits. -/
def ofGroupsLE : List Nat → Nat
  | [] => 0
  | b :: r => b + 128 * ofGroupsLE r

theorem varintGroups_ne_nil (fuel n : Nat) : varintGroups (fuel + 1) n ≠ [] := by
  unfold varintGroups
  split <;> simp

theorem varintGroups_length_le : ∀ fuel n, (varintGroups fuel n).length ≤ fuel := by
  intro fuel
  induction fuel with
  | zero => intro n; simp [varintGroups]
  | succ f ih =>
    intro n
    unfold varintGroups
    split
    · simp
    · simpa using Nat.succ_le_succ (ih (n / 128))

theorem varintGroups_lt : ∀ fuel n, n < fuel → ∀ b ∈ varintGroups fuel n, b < 128 := by
  intro fuel
  induction fuel with
  | zero => intro n hn; omega
  | succ f ih =>
    intro n hn b hb
    unfold varintGroups at hb
    by_cases h : n < 128
    · simp [h] at hb; omega
    · simp [h] at hb
      rcases hb with hb | hb
      · omega
      · exact ih (n / 128) (by omega) b hb

theorem varintGroups_val : ∀ fuel n, n < fuel → ofGroupsLE (varintGroups fuel n) = n := by
  intro fuel
  induction fuel with
  | zero => intro n hn; omega
  | succ f ih =>
    intro n hn
    unfold varintGroups
    by_cases h : n < 128
    · simp [h, ofGroupsLE]
    · have hrec : ofGroupsLE (varintGroups f (n / 128)) = n / 128 := by
        refine ih (n / 128) ?_
        have : n / 128 < n := Nat.div_lt_self (by omega) (by omega)
        omega
      simp [h, ofGroupsLE, hrec]
      omega

theorem markCont_length (l : List Nat) : (markCont l).length = l.length := by
  induction l with
  | nil => rfl
  | cons b r ih =>
    cases r with
    | nil => rfl
    | cons c s => simpa [markCont] using ih

theorem encodeVarint_ne_nil (n : Nat) : encodeVarint n ≠ [] := by
  unfold encodeVarint
  intro h
  have h1 : (markCont (varintGroups (n + 1) n).reverse).length = 0 := by rw [h]; rfl
  rw [markCont_length, List.length_reverse] at h1
  exact varintGroups_ne_nil n n (List.eq_nil_of_length_eq_zero h1)

theorem encodeVarint_length_pos (n : Nat) : 1 ≤ (encodeVarint n).length := by
  have := encodeVarint_ne_nil n
  cases h : encodeVarint n with
  | nil => exact absurd h this
  | cons b r => simp [h]

theorem encodeVarint_length_le (n : Nat) : (encodeVarint n).length ≤ n + 1 := by
  unfold encodeVarint
  rw [markCont_length, List.length_reverse]
  exact varintGroups_length_le (n + 1) n

theorem readVarintAux_markCont :
    ∀ gs : List Nat, gs ≠ [] → (∀ b ∈ gs, b < 128) → ∀ acc rest,
      readVarintAux (markCont gs ++ rest) acc =
        Except.ok (gs.foldl (fun x b => x * 128 + b) acc, rest) := by
  intro gs
  induction gs with
  | nil => intro h; exact absurd rfl h
  | cons b r ih =>
    intro _ hlt acc rest
    cases r with
    | nil =>
      have hb : b < 128 := hlt b (by simp)
      simp [markCont, readVarintAux, hb]
    | cons c s =>
      have hb : b < 128 := hlt b (by simp)
      have hr : ∀ x ∈ c :: s, x < 128 := fun x hx => hlt x (by simp [hx])
      have hstep : readVarintAux ((b + 128) :: (markCont (c :: s) ++ rest)) acc =
          readVarintAux (markCont (c :: s) ++ rest) (acc * 128 + b) := by
        have hge : ¬ b + 128 < 128 := by omega
        simp [readVarintAux, hge]
      calc readVarintAux (markCont (b :: c :: s) ++ rest) acc
      _ = readVarintAux (markCont (c :: s) ++ rest) (acc * 128 + b) := by
        simpa [markCont] using hstep
      _ = Except.ok ((c :: s).foldl (fun x b => x * 128 + b) (acc * 128 + b), rest) :=
        ih (by simp) hr (acc * 128 + b) rest
      _ = Except.ok ((b :: c :: s).foldl (fun x b => x * 128 + b) acc, rest) := by
        simp [List.foldl_cons]

theorem foldl_reverse_ofGroupsLE :
    ∀ (gs : List Nat) (acc : Nat),
      gs.reverse.foldl (fun x b => x * 128 + b) acc = acc * 128 ^ gs.length + ofGroupsLE gs := by
  intro gs
  induction gs with
  | nil => intro acc; simp [ofGroupsLE]
  | cons g r ih =>
    intro acc
    rw [List.reverse_cons, List.foldl_append]
    simp only [List.foldl_cons, List.foldl_nil, ih acc, ofGroupsLE, List.length_cons, pow_succ]
    ring

/-- The varint round trip: the decoder reads back exactly the encoded value
and leaves the rest of the stream untouched. -/
theorem readVarint_encode (n : Nat) (hn : n < 2 ^ 64) (rest : List Nat) :
    readVarint (encodeVarint n ++ rest) = Except.ok (n, rest) := by
  have hne : (varintGroups (n + 1) n).reverse ≠ [] := by
    simpa using varintGroups_ne_nil n n
  have hlt : ∀ b ∈ (varintGroups (n + 1) n).reverse, b < 128 := by
    intro b hb
    exact varintGroups_lt (n + 1) n (by omega) b (List.mem_reverse.mp hb)
  have haux := readVarintAux_markCont (varintGroups (n + 1) n).reverse hne hlt 0 rest
  have hval : (varintGroups (n + 1) n).reverse.foldl (fun x b => x * 128 + b) 0 = n := by
    rw [foldl_reverse_ofGroupsLE]
    simpa using varintGroups_val (n + 1) n (by omega)
  unfold readVarint encodeVarint
  rw [haux, hval]
  have h64 : n < 18446744073709551616 := hn
  simp [h64]

/-! ## Stability of the readers

A reader is stable when appending bytes after the part of the stream it
successfully consumed does not change what it reads.  Stability is the key
to the truncation analysis: a successful parse of a truncated stream would
extend to a successful parse of the full stream consuming too little. -/

/-- A reader is stable when a successful read is preserved, with the same
value, by appending further bytes to the stream. -/
def PStable {α : Type} (m : P α) : Prop :=
  ∀ xs zs a rem, m xs = Except.ok (a, rem) → m (xs ++ zs) = Except.ok (a, rem ++ zs)

theorem pBind_stable {α β : Type} {m : P α} {f : α → P β}
    (hm : PStable m) (hf : ∀ a, PStable (f a)) : PStable (pBind m f) := by
  intro xs zs a rem h
  unfold pBind at h ⊢
  cases hx : m xs with
  | error e => rw [hx] at h; exact absurd h (by simp)
  | ok p =>
    rw [hx] at h
    rw [hm xs zs p.1 p.2 (by rw [hx])]
    exact hf p.1 p.2 zs a rem h

theorem pPure_stable {α : Type} (a : α) : PStable (pPure a) := by
  intro xs zs b rem h
  unfold pPure at h
  cases h
  rfl

theorem pGuard_stable (c : Prop) [Decidable c] (e : CoreError) : PStable (pGuard c e) := by
  intro xs zs a rem h
  unfold pGuard at h ⊢
  split at h
  · cases h
    rw [if_pos (by assumption)]
  · exact absurd h (by simp)

theorem readByte_stable : PStable readByte := by
  intro xs zs a rem h
  cases xs with
  | nil => exact absurd h (by simp [readByte])
  | cons b r =>
    simp [readByte] at h
    simp [readByte, h.1, h.2]

theorem readChunk_stable (k : Nat) : PStable (readChunk k) := by
  intro xs zs a rem h
  unfold readChunk at h ⊢
  split at h
  · rename_i hk
    simp only [Except.ok.injEq, Prod.mk.injEq] at h
    rw [if_pos (by simp; omega)]
    rw [List.take_append_eq_append_take, List.drop_append_eq_append_drop]
    rw [Nat.sub_eq_zero_of_le hk]
    simp [h.1, h.2]
  · exact absurd h (by simp)

theorem readVarintAux_stable :
    ∀ (xs zs : List Nat) (acc v : Nat) (rem : List Nat),
      readVarintAux xs acc = Except.ok (v, rem) →
      readVarintAux (xs ++ zs) acc = Except.ok (v, rem ++ zs) := by
  intro xs
  induction xs with
  | nil => intro zs acc v rem h; exact absurd h (by simp [readVarintAux])
  | cons b r ih =>
    intro zs acc v rem h
    simp only [List.cons_append]
    by_cases hb : b < 128
    · simp only [readVarintAux, if_pos hb] at h ⊢
      simp only [Except.ok.injEq, Prod.mk.injEq] at h
      simp [h.1, h.2]
    · simp only [readVarintAux, if_neg hb] at h ⊢
      exact ih zs _ v rem h

theorem readVarint_stable : PStable readVarint := by
  intro xs zs a rem h
  unfold readVarint at h ⊢
  cases hx : readVarintAux xs 0 with
  | error e => rw [hx] at h; exact absurd h (by simp)
  | ok p =>
    obtain ⟨v, rest⟩ := p
    rw [hx] at h
    rw [readVarintAux_stable xs zs 0 v rest hx]
    dsimp only at h ⊢
    by_cases hv : v < 2 ^ 64
    · rw [if_pos hv] at h ⊢
      simp only [Except.ok.injEq, Prod.mk.injEq] at h
      simp [h.1, h.2]
    · rw [if_neg hv] at h
      exact absurd h (by simp)

theorem parseWindow_stable (ns : Nat) : PStable (parseWindow ns) := by
  unfold parseWindow
  refine pBind_stable readByte_stable fun winInd => ?_
  refine pBind_stable (pGuard_stable _ _) fun _ => ?_
  refine pBind_stable ?_ fun srcInfo => ?_
  · split
    · refine pBind_stable readVarint_stable fun sl => ?_
      refine pBind_stable readVarint_stable fun so => ?_
      exact pBind_stable (pGuard_stable _ _) fun _ => pPure_stable _
    · exact pPure_stable _
  · refine pBind_stable readVarint_stable fun _deltaLen => ?_
    refine pBind_stable readVarint_stable fun targetLen => ?_
    refine pBind_stable readByte_stable fun deltaInd => ?_
    refine pBind_stable (pGuard_stable _ _) fun _ => ?_
    refine pBind_stable readVarint_stable fun dataLen => ?_
    refine pBind_stable readVarint_stable fun instLen => ?_
    refine pBind_stable readVarint_stable fun addrLen => ?_
    refine pBind_stable ?_ fun cks => ?_
    · split
      · exact pBind_stable (readChunk_stable _) fun cs => pPure_stable _
      · exact pPure_stable _
    · refine pBind_stable (readChunk_stable _) fun dataSec => ?_
      refine pBind_stable (readChunk_stable _) fun instSec => ?_
      refine pBind_stable (readChunk_stable _) fun addrSec => ?_
      exact pPure_stable _

/-! ## Parsing a serialized window -/

theorem readChunk_append (k : Nat) (xs : List Nat) (h : xs.length = k) (rest : List Nat) :
    readChunk k (xs ++ rest) = Except.ok (xs, rest) := by
  unfold readChunk
  rw [if_pos (by simp; omega)]
  rw [List.take_append_eq_append_take, List.drop_append_eq_append_drop]
  subst h
  simp

theorem parseWindow_noSource (ns n tl dl il al : Nat) (da ins ad tail : List Nat)
    (hn : n < 2 ^ 64) (htl : tl < 2 ^ 64) (hdl : dl < 2 ^ 64) (hil : il < 2 ^ 64)
    (hal : al < 2 ^ 64) (hd : da.length = dl) (hi : ins.length = il) (ha : ad.length = al) :
    parseWindow ns (0 :: (encodeVarint n ++ (encodeVarint tl ++ (0 :: (encodeVarint dl ++
      (encodeVarint il ++ (encodeVarint al ++ (da ++ (ins ++ (ad ++ tail)))))))))) =
    Except.ok ({ hasSource := false, srcLen := 0, srcOff := 0, targetLen := tl,
                 checksum := none, data := da, inst := ins, addr := ad }, tail) := by
  simp [parseWindow, pBind, pPure, pGuard, readByte,
        readVarint_encode n hn, readVarint_encode tl htl, readVarint_encode dl hdl,
        readVarint_encode il hil, readVarint_encode al hal,
        readChunk_append dl da hd, readChunk_append il ins hi, readChunk_append al ad ha,
        List.append_assoc]

theorem parseWindow_withSource (ns sl so n tl dl il al : Nat) (da ins ad tail : List Nat)
    (hbound : so + sl ≤ ns) (hsl : sl < 2 ^ 64) (hso : so < 2 ^ 64) (hn : n < 2 ^ 64)
    (htl : tl < 2 ^ 64) (hdl : dl < 2 ^ 64) (hil : il < 2 ^ 64) (hal : al < 2 ^ 64)
    (hd : da.length = dl) (hi : ins.length = il) (ha : ad.length = al) :
    parseWindow ns (1 :: (encodeVarint sl ++ (encodeVarint so ++ (encodeVarint n ++
      (encodeVarint tl ++ (0 :: (encodeVarint dl ++ (encodeVarint il ++ (encodeVarint al ++
      (da ++ (ins ++ (ad ++ tail)))))))))))) =
    Except.ok ({ hasSource := true, srcLen := sl, srcOff := so, targetLen := tl,
                 checksum := none, data := da, inst := ins, addr := ad }, tail) := by
  simp [parseWindow, pBind, pPure, pGuard, readByte, hbound,
        readVarint_encode sl hsl, readVarint_encode so hso,
        readVarint_encode n hn, readVarint_encode tl htl, readVarint_encode dl hdl,
        readVarint_encode il hil, readVarint_encode al hal,
        readChunk_append dl da hd, readChunk_append il ins hi, readChunk_append al ad ha,
        List.append_assoc]

/-- Parsing a serialized checksum-free window consumes exactly its bytes:
whatever follows it in the stream is returned untouched as the remainder. -/
theorem parse_serialize (ns : Nat) (w : VcdWindow) (tail : List Nat)
    (hck : w.checksum = none)
    (hsrc : w.hasSource = true → w.srcOff + w.srcLen ≤ ns)
    (h1 : w.srcLen < 2 ^ 32) (h2 : w.srcOff < 2 ^ 32) (h3 : w.targetLen < 2 ^ 32)
    (h4 : w.data.length < 2 ^ 32) (h5 : w.inst.length < 2 ^ 32)
    (h6 : w.addr.length < 2 ^ 32) :
    ∃ pw, parseWindow ns (serializeWindow w ++ tail) = Except.ok (pw, tail) := by
  have hpow : (2 : Nat) ^ 64 = 18446744073709551616 := by norm_num
  have hpow32 : (2 : Nat) ^ 32 = 4294967296 := by norm_num
  rw [hpow32] at h1 h2 h3 h4 h5 h6
  have e1 := encodeVarint_length_le w.targetLen
  have e2 := encodeVarint_length_le w.data.length
  have e3 := encodeVarint_length_le w.inst.length
  have e4 := encodeVarint_length_le w.addr.length
  have hB : (windowBody w).length < 2 ^ 64 := by
    rw [hpow]
    simp only [windowBody, hck, List.length_append, List.length_cons, List.length_nil]
    omega
  cases hs : w.hasSource with
  | false =>
    have hshape : serializeWindow w ++ tail =
        0 ::
        (encodeVarint (windowBody w).length ++
        (encodeVarint w.targetLen ++
        (0 ::
        (encodeVarint w.data.length ++
        (encodeVarint w.inst.length ++
        (encodeVarint w.addr.length ++
        (w.data ++ (w.inst ++ (w.addr ++ tail))))))))) := by
      simp [serializeWindow, windowBody, hck, hs, List.append_assoc]
    refine ⟨{ hasSource := false, srcLen := 0, srcOff := 0, targetLen := w.targetLen,
              checksum := none, data := w.data, inst := w.inst, addr := w.addr }, ?_⟩
    rw [hshape]
    exact parseWindow_noSource ns (windowBody w).length w.targetLen w.data.length
      w.inst.length w.addr.length w.data w.inst w.addr tail hB (by omega) (by omega)
      (by omega) (by omega) rfl rfl rfl
  | true =>
    have hshape : serializeWindow w ++ tail =
        1 ::
        (encodeVarint w.srcLen ++
        (encodeVarint w.srcOff ++
        (encodeVarint (windowBody w).length ++
        (encodeVarint w.targetLen ++
        (0 ::
        (encodeVarint w.data.length ++
        (encodeVarint w.inst.length ++
        (encodeVarint w.addr.length ++
        (w.data ++ (w.inst ++ (w.addr ++ tail))))))))))) := by
      simp [serializeWindow, windowBody, hck, hs, List.append_assoc]
    refine ⟨{ hasSource := true, srcLen := w.srcLen, srcOff := w.srcOff,
              targetLen := w.targetLen, checksum := none, data := w.data, inst := w.inst,
              addr := w.addr }, ?_⟩
    rw [hshape]
    exact parseWindow_withSource ns w.srcLen w.srcOff (windowBody w).length w.targetLen
      w.data.length w.inst.length w.addr.length w.data w.inst w.addr tail (hsrc hs)
      (by omega) (by omega) hB (by omega) (by omega) (by omega) (by omega) rfl rfl rfl

/-! ## Truncation rejection -/

theorem dropLast_append_ne {α : Type} (l1 l2 : List α) (h : l2 ≠ []) :
    (l1 ++ l2).dropLast = l1 ++ l2.dropLast := by
  induction l1 with
  | nil => simp
  | cons a r ih =>
    have hne : r ++ l2 ≠ [] := by
      intro hc
      exact h (List.append_eq_nil.mp hc).2
    cases hr : r ++ l2 with
    | nil => exact absurd hr hne
    | cons b s =>
      simp only [List.cons_append, hr, List.dropLast_cons₂]
      rw [← hr, ih]

theorem coreErrCode_ne_zero (e : CoreError) : coreErrCode e ≠ 0 := by
  cases e <;> simp [coreErrCode]

theorem wrapResult_of_err (len : Nat) (ec : Int) (out : List Nat) (h : ec ≠ 0) :
    ∃ e2, wrapResult len ec out = Except.error e2 := by
  unfold wrapResult
  rw [if_neg h]
  by_cases h2 : ec = ENOSPC
  · exact ⟨Error.InsufficientOutputLength, by rw [if_pos h2]⟩
  · exact ⟨Error.XDelta3 ec, by rw [if_neg h2]⟩

/-- The inversion of a successful `encode` call: the returned delta is the
modelled core's delta of the length-truncated inputs, and it fits the
default buffer. -/
theorem encode_ok {input src D : List Nat} (h : encode input src = Except.ok D) :
    D = encodeDelta (truncU32 input) (truncU32 src) ∧
    D.length ≤ defaultOutputLen input.length src.length := by
  unfold encode encode_with_output_len xd3_encode_memory at h
  by_cases hc : defaultOutputLen input.length src.length <
      (encodeDelta (truncU32 input) (truncU32 src)).length
  · rw [if_pos hc] at h
    simp [wrapResult, ENOSPC] at h
  · rw [if_neg hc] at h
    simp [wrapResult, hc] at h
    subst h
    exact ⟨rfl, by omega⟩

theorem truncU32_length_lt (l : List Nat) : (truncU32 l).length < 2 ^ 32 := by
  unfold truncU32
  rw [List.length_take]
  have := Nat.mod_lt (l.length + l.length) (show 0 < 2 ^ 32 by norm_num)
  have h2 := Nat.mod_lt l.length (show 0 < 2 ^ 32 by norm_num)
  omega

theorem defaultOutputLen_lt (a b : Nat) : defaultOutputLen a b < 2 ^ 32 := by
  unfold defaultOutputLen
  exact Nat.mod_lt _ (by norm_num)

/-- Removing the final byte of any delta produced by `encode` makes `decode`
fail: the serialized window declares the exact lengths of its sections, so
the parse of the truncated stream cannot succeed (it would extend, by
stability, to a parse of the full stream that leaves a nonempty
remainder). -/
theorem decode_dropLast_errs (T S D : List Nat) (h : encode T S = Except.ok D) :
    ∃ e, decode D.dropLast S = Except.error e := by
  obtain ⟨hD, hlen⟩ := encode_ok h
  have hlt32 : defaultOutputLen T.length S.length < 2 ^ 32 := defaultOutputLen_lt _ _
  rw [show encodeDelta (truncU32 T) (truncU32 S) =
      ([214, 195, 196, 0] ++ [0]) ++ serializeWindow (buildWindow (truncU32 T) (truncU32 S))
    from by simp [encodeDelta]] at hD
  have hckw : (buildWindow (truncU32 T) (truncU32 S)).checksum = none := rfl
  have hoff : (buildWindow (truncU32 T) (truncU32 S)).srcOff = 0 := rfl
  have hslen : (buildWindow (truncU32 T) (truncU32 S)).srcLen = (truncU32 S).length := rfl
  have htlen : (buildWindow (truncU32 T) (truncU32 S)).targetLen = (truncU32 T).length := rfl
  have hsw1 : 1 ≤ (encodeVarint (windowBody (buildWindow (truncU32 T) (truncU32 S))).length).length :=
    encodeVarint_length_pos _
  have hswlen : 2 ≤ (serializeWindow (buildWindow (truncU32 T) (truncU32 S))).length := by
    simp only [serializeWindow, List.length_append, List.length_cons, List.length_nil]
    omega
  have hswne : serializeWindow (buildWindow (truncU32 T) (truncU32 S)) ≠ [] := by
    intro hc
    rw [hc] at hswlen
    simp at hswlen
  have hDlen : D.length =
      5 + (serializeWindow (buildWindow (truncU32 T) (truncU32 S))).length := by
    rw [hD]
    simp
    omega
  have hsecs : (buildWindow (truncU32 T) (truncU32 S)).data.length < 2 ^ 32 ∧
      (buildWindow (truncU32 T) (truncU32 S)).inst.length < 2 ^ 32 ∧
      (buildWindow (truncU32 T) (truncU32 S)).addr.length < 2 ^ 32 := by
    have hsw_le : (serializeWindow (buildWindow (truncU32 T) (truncU32 S))).length < 2 ^ 32 := by
      omega
    have hbody : (windowBody (buildWindow (truncU32 T) (truncU32 S))).length ≤
        (serializeWindow (buildWindow (truncU32 T) (truncU32 S))).length := by
      simp only [serializeWindow, List.length_append, List.length_cons, List.length_nil]
      omega
    have hin : (buildWindow (truncU32 T) (truncU32 S)).data.length +
        (buildWindow (truncU32 T) (truncU32 S)).inst.length +
        (buildWindow (truncU32 T) (truncU32 S)).addr.length ≤
        (windowBody (buildWindow (truncU32 T) (truncU32 S))).length := by
      simp only [windowBody, hckw, List.length_append, List.length_cons, List.length_nil]
      omega
    omega
  obtain ⟨pw, hpw⟩ := parse_serialize (truncU32 S).length (buildWindow (truncU32 T) (truncU32 S))
    [] hckw (fun _ => by rw [hoff, hslen]; omega)
    (by rw [hslen]; exact truncU32_length_lt S) (by rw [hoff]; norm_num)
    (by rw [htlen]; exact truncU32_length_lt T) hsecs.1 hsecs.2.1 hsecs.2.2
  rw [List.append_nil] at hpw
  have hddl : D.dropLast =
      [214, 195, 196, 0, 0] ++
      (serializeWindow (buildWindow (truncU32 T) (truncU32 S))).dropLast := by
    rw [hD, dropLast_append_ne _ _ hswne]
    simp
  have hdlne : (serializeWindow (buildWindow (truncU32 T) (truncU32 S))).dropLast ≠ [] := by
    intro hc
    have := congrArg List.length hc
    rw [List.length_dropLast] at this
    simp at this
    omega
  have hperr : ∃ e, parseWindow (truncU32 S).length
      (serializeWindow (buildWindow (truncU32 T) (truncU32 S))).dropLast = Except.error e := by
    cases hp : parseWindow (truncU32 S).length
        (serializeWindow (buildWindow (truncU32 T) (truncU32 S))).dropLast with
    | error e => exact ⟨e, rfl⟩
    | ok p =>
      exfalso
      have hstab := parseWindow_stable (truncU32 S).length _
        [(serializeWindow (buildWindow (truncU32 T) (truncU32 S))).getLast hswne] p.1 p.2 hp
      rw [List.dropLast_append_getLast hswne] at hstab
      rw [hpw] at hstab
      simp only [Except.ok.injEq, Prod.mk.injEq] at hstab
      have := hstab.2
      simp at this
  obtain ⟨e, hperr⟩ := hperr
  have hcore : decodeDelta D.dropLast (truncU32 S) = Except.error e := by
    rw [hddl]
    simp only [List.cons_append, List.nil_append, decodeDelta]
    rw [if_pos (by norm_num)]
    cases hfl : (serializeWindow (buildWindow (truncU32 T) (truncU32 S))).dropLast.length with
    | zero =>
      exact absurd (List.eq_nil_of_length_eq_zero hfl) hdlne
    | succ m =>
      simp only [decodeWindows, hfl]
      rw [if_neg hdlne]
      rw [hperr]
  have htrunc : truncU32 D.dropLast = D.dropLast := by
    unfold truncU32
    have hlt : D.dropLast.length < 2 ^ 32 := by
      rw [List.length_dropLast]
      omega
    rw [Nat.mod_eq_of_lt hlt, List.take_length]
  unfold decode decode_with_output_len xd3_decode_memory
  rw [htrunc, hcore]
  exact wrapResult_of_err _ _ _ (coreErrCode_ne_zero e)

/-! ## The claims -/

/-- C1: the claim states `decode(encode(T, S), S) = Ok T` for every pair of
byte sequences.  The code fails it: with `T = S = []` the default output
buffer length is `(0 + 0) * 2 = 0`, the minimal delta (12 bytes here) cannot
fit, and `encode` returns `Err(InsufficientOutputLength)`, so the round trip
returns an error instead of `Ok []`. -/
theorem claim_c1_roundtrip_fails_on_empty :
    roundTrip [] [] = Except.error Error.InsufficientOutputLength := by rfl

/-- C2, counterexample: the claim states that neither `encode` nor `decode`
ever returns an insufficient-output-capacity error, but `encode([5], [])`
gets a fixed 2-byte buffer from the `(input+src)*2` heuristic and fails with
`InsufficientOutputLength`. -/
theorem claim_c2_counterexample :
    encode [5] [] = Except.error Error.InsufficientOutputLength := by rfl

/-- C2, amended: both `encode` and `decode` pass a fixed output capacity of
`((len input + len src) mod 2^32) * 2 mod 2^32` bytes to the native codec,
and each returns `Err(InsufficientOutputLength)` whenever its output — the
produced delta for `encode`, the reconstructed target for `decode` —
exceeds the caller-chosen capacity; the buffer does not grow on demand. -/
theorem claim_c2_fixed_capacity :
    ∀ input src : List Nat,
      (encode input src =
        encode_with_output_len input src (defaultOutputLen input.length src.length)) ∧
      (decode input src =
        decode_with_output_len input src (defaultOutputLen input.length src.length)) ∧
      (∀ len : Nat, len < (encodeDelta (truncU32 input) (truncU32 src)).length →
        encode_with_output_len input src len =
          Except.error Error.InsufficientOutputLength) ∧
      (∀ (len : Nat) (t : List Nat),
        decodeDelta (truncU32 input) (truncU32 src) = Except.ok t → len < t.length →
        decode_with_output_len input src len =
          Except.error Error.InsufficientOutputLength) := by
  refine fun input src => ⟨rfl, rfl, fun len hlt => ?_, fun len t ht hlt => ?_⟩
  · unfold encode_with_output_len xd3_encode_memory
    rw [if_pos hlt]
    simp [wrapResult, ENOSPC]
  · unfold decode_with_output_len xd3_decode_memory
    rw [ht]
    simp only []
    rw [if_pos hlt]
    simp [wrapResult, ENOSPC]

/-- C2, witness for the amended theorem at concrete inputs: the 1-byte
encode input gets a 2-byte default buffer but needs 14 delta bytes, and the
documented 20-byte delta's 7-byte target does not fit a 0-byte buffer. -/
theorem claim_c2_witness :
    encode_with_output_len [5] [] 0 = Except.error Error.InsufficientOutputLength ∧
    decode_with_output_len [214, 195, 196, 0, 0, 0, 13, 7, 0, 7, 1, 0, 1, 2, 3, 4, 5, 6, 7, 8]
      [1, 2, 4, 4, 7, 6, 7] 0 = Except.error Error.InsufficientOutputLength :=
  ⟨(claim_c2_fixed_capacity [5] []).2.2.1 0 (by decide),
   (claim_c2_fixed_capacity
      [214, 195, 196, 0, 0, 0, 13, 7, 0, 7, 1, 0, 1, 2, 3, 4, 5, 6, 7, 8]
      [1, 2, 4, 4, 7, 6, 7]).2.2.2 0 [1, 2, 3, 4, 5, 6, 7] (by rfl) (by decide)⟩

/-- C3: `encode` either returns `Ok` or fails only with the capacity error
`InsufficientOutputLength`; no other error kind is possible, since the
modelled encoder cannot fail on well-formed input by construction. -/
theorem claim_c3_encode_errors_only_capacity :
    ∀ input src : List Nat,
      (∃ v, encode input src = Except.ok v) ∨
      encode input src = Except.error Error.InsufficientOutputLength := by
  intro input src
  unfold encode encode_with_output_len xd3_encode_memory
  by_cases hc : defaultOutputLen input.length src.length <
      (encodeDelta (truncU32 input) (truncU32 src)).length
  · right
    rw [if_pos hc]
    simp [wrapResult, ENOSPC]
  · left
    rw [if_neg hc]
    exact ⟨encodeDelta (truncU32 input) (truncU32 src), by simp [wrapResult, hc]⟩

/-- C4, counterexample: the claim states that `decode` never silently
accepts corruption by returning a plausible-looking wrong answer, but
corrupting one literal-data byte of the crate's documented (checksum-free)
delta — byte 18, `7` changed to `42` — decodes successfully to a wrong
target. -/
theorem claim_c4_counterexample :
    decode [214, 195, 196, 0, 0, 0, 13, 7, 0, 7, 1, 0, 1, 2, 3, 4, 5, 6, 42, 8]
        [1, 2, 4, 4, 7, 6, 7] = Except.ok [1, 2, 3, 4, 5, 6, 42] ∧
    ([1, 2, 3, 4, 5, 6, 42] : List Nat) ≠ [1, 2, 3, 4, 5, 6, 7] := by
  exact ⟨by rfl, by decide⟩

/-- C4, amended: `decode` always returns a `Result` with a distinct error
kind rather than panicking, and removing the final byte of any delta that
`encode` produced makes `decode` return an error; corruption inside the
literal-data section of a checksum-free window, however, is not detected. -/
theorem claim_c4_amended (T S D : List Nat) (h : encode T S = Except.ok D) :
    ∃ e, decode D.dropLast S = Except.error e :=
  decode_dropLast_errs T S D h

/-- C4, witness for the amended theorem at the documented example vector. -/
theorem claim_c4_witness :
    ∃ e, decode (List.dropLast [214, 195, 196, 0, 0, 0, 13, 7, 0, 7, 1, 0,
        1, 2, 3, 4, 5, 6, 7, 8]) [1, 2, 4, 4, 7, 6, 7] = Except.error e :=
  claim_c4_amended [1, 2, 3, 4, 5, 6, 7] [1, 2, 4, 4, 7, 6, 7]
    [214, 195, 196, 0, 0, 0, 13, 7, 0, 7, 1, 0, 1, 2, 3, 4, 5, 6, 7, 8] (by rfl)

/-- C5: when `decode` returns an error it returns an error only — the
`Result` carries no partial output, never any prefix of the reconstructed
target. -/
theorem claim_c5_no_partial_output :
    ∀ (input src : List Nat) (e : Error), decode input src = Except.error e →
      ∀ v : List Nat, decode input src ≠ Except.ok v := by
  intro input src e he v hv
  rw [he] at hv
  exact absurd hv (by simp)

/-- C5, witness at a concrete erroring decode. -/
theorem claim_c5_witness : decode [] [] ≠ Except.ok [] :=
  claim_c5_no_partial_output [] [] (Error.XDelta3 (-2)) (by rfl) []

/-- C6: encoding is deterministic — two calls of `encode` on the same pair
yield byte-identical delta streams. -/
theorem claim_c6_deterministic :
    ∀ (T S d1 d2 : List Nat), encode T S = Except.ok d1 → encode T S = Except.ok d2 →
      d1 = d2 := by
  intro T S d1 d2 h1 h2
  rw [h1] at h2
  simpa using h2

/-- C6, witness at the documented example vector. -/
theorem claim_c6_witness :
    ([214, 195, 196, 0, 0, 0, 13, 7, 0, 7, 1, 0, 1, 2, 3, 4, 5, 6, 7, 8] : List Nat) =
    [214, 195, 196, 0, 0, 0, 13, 7, 0, 7, 1, 0, 1, 2, 3, 4, 5, 6, 7, 8] :=
  claim_c6_deterministic [1, 2, 3, 4, 5, 6, 7] [1, 2, 4, 4, 7, 6, 7] _ _ (by rfl) (by rfl)

/-- C7: the claim states that `encode(b"", b"")` produces a valid minimal
delta, but the wrapper's default buffer length for empty inputs is 0 bytes,
so the (12-byte) minimal delta cannot be written and `encode` returns
`Err(InsufficientOutputLength)`. -/
theorem claim_c7_empty_encode_fails :
    encode [] [] = Except.error Error.InsufficientOutputLength := by rfl

/-- C8: the documented example vector — `encode([1..7], [1,2,4,4,7,6,7])`
returns exactly the documented 20-byte delta, and decoding that delta
against the same source returns the original target. -/
theorem claim_c8_example_vector :
    encode [1, 2, 3, 4, 5, 6, 7] [1, 2, 4, 4, 7, 6, 7] =
      Except.ok [214, 195, 196, 0, 0, 0, 13, 7, 0, 7, 1, 0, 1, 2, 3, 4, 5, 6, 7, 8] ∧
    decode [214, 195, 196, 0, 0, 0, 13, 7, 0, 7, 1, 0, 1, 2, 3, 4, 5, 6, 7, 8]
      [1, 2, 4, 4, 7, 6, 7] = Except.ok [1, 2, 3, 4, 5, 6, 7] := by
  exact ⟨by rfl, by rfl⟩

/-- C9: the shared result handling of `encode_with_output_len` and
`decode_with_output_len` never returns a buffer longer than
`output_buffer_len`: an `Ok v` has `v.length ≤ output_buffer_len`, and a
success code whose reported length exceeds the buffer is turned into
`Error::OutOfBounds { expected_length := output_buffer_len,
actual_length := reported }`. -/
theorem claim_c9_out_of_bounds_guard :
    ∀ (len : Nat),
      (∀ (ec : Int) (out : List Nat),
        (∀ v, wrapResult len ec out = Except.ok v → v.length ≤ len) ∧
        (ec = 0 → len < out.length →
          wrapResult len ec out = Except.error (Error.OutOfBounds len out.length))) ∧
      (∀ input src v, encode_with_output_len input src len = Except.ok v → v.length ≤ len) ∧
      (∀ input src v, decode_with_output_len input src len = Except.ok v → v.length ≤ len) := by
  intro len
  have hmain : ∀ (ec : Int) (out : List Nat),
      (∀ v, wrapResult len ec out = Except.ok v → v.length ≤ len) ∧
      (ec = 0 → len < out.length →
        wrapResult len ec out = Except.error (Error.OutOfBounds len out.length)) := by
    intro ec out
    constructor
    · intro v hv
      unfold wrapResult at hv
      by_cases h0 : ec = 0
      · rw [if_pos h0] at hv
        by_cases hb : len < out.length
        · rw [if_pos hb] at hv
          exact absurd hv (by simp)
        · rw [if_neg hb] at hv
          simp only [Except.ok.injEq] at hv
          subst hv
          omega
      · rw [if_neg h0] at hv
        by_cases h2 : ec = ENOSPC
        · rw [if_pos h2] at hv
          exact absurd hv (by simp)
        · rw [if_neg h2] at hv
          exact absurd hv (by simp)
    · intro h0 hb
      unfold wrapResult
      rw [if_pos h0, if_pos hb]
  refine ⟨hmain, fun input src v hv => ?_, fun input src v hv => ?_⟩
  · exact (hmain _ _).1 v hv
  · exact (hmain _ _).1 v hv

/-- C9, witness: a zero error code with one byte reported against a
zero-length buffer yields `OutOfBounds 0 1`. -/
theorem claim_c9_witness : wrapResult 0 0 [7] = Except.error (Error.OutOfBounds 0 1) :=
  (claim_c9_out_of_bounds_guard 0).1 0 [7] |>.2 rfl (by decide)

/-- C10: the default output buffer length used by both `encode` and `decode`
is `((len input + len src) mod 2^32) * 2 mod 2^32` — the combined length
truncated to 32 bits and doubled in wrapping 32-bit arithmetic — and for
combined lengths at or above `2^31` the computed capacity wraps around and
is strictly smaller than the combined length. -/
theorem claim_c10_default_len :
    (∀ input src : List Nat,
      encode input src =
        encode_with_output_len input src (defaultOutputLen input.length src.length) ∧
      decode input src =
        decode_with_output_len input src (defaultOutputLen input.length src.length) ∧
      defaultOutputLen input.length src.length =
        (input.length + src.length) % 2 ^ 32 * 2 % 2 ^ 32) ∧
    (∀ a b : Nat, 2 ^ 31 ≤ a + b → defaultOutputLen a b < a + b) := by
  refine ⟨fun input src => ⟨rfl, rfl, rfl⟩, fun a b hbig => ?_⟩
  unfold defaultOutputLen
  have hm : (a + b) % 2 ^ 32 < 2 ^ 32 := Nat.mod_lt _ (by norm_num)
  by_cases hn : a + b < 2 ^ 32
  · have hmn : (a + b) % 2 ^ 32 = a + b := Nat.mod_eq_of_lt hn
    rw [hmn]
    have hsub : (a + b) * 2 % 2 ^ 32 = (a + b) * 2 - 2 ^ 32 := by
      rw [Nat.mod_eq_sub_mod (by omega)]
      exact Nat.mod_eq_of_lt (by omega)
    omega
  · have : (a + b) % 2 ^ 32 * 2 % 2 ^ 32 < 2 ^ 32 := Nat.mod_lt _ (by norm_num)
    omega

/-- C10, witness: at combined input length exactly `2^31` the computed
capacity wraps to 0, strictly smaller than the combined length. -/
theorem claim_c10_witness : defaultOutputLen (2 ^ 31) 0 < 2 ^ 31 + 0 :=
  claim_c10_default_len.2 (2 ^ 31) 0 (by norm_num)

end Xd3
